import Mathlib

/-!
Verification development for a 2D particle-life simulation (Rust/Bevy, one
source file `src/main.rs`).

Modelling conventions:
* `f32` values are modelled as exact rationals (`ℚ`).  A value of type
  `F := Option ℚ` is a floating-point value that may be non-finite:
  `some q` is the finite value `q`, `none` stands for any non-finite
  result (NaN or ±∞).  Arithmetic on `F` propagates `none`, matching IEEE
  for all operand shapes that the program can actually produce (a finite
  value divided by zero is non-finite; any arithmetic on NaN is NaN;
  `x + ∞`, `x * ∞`, `∞ * 0`, `NaN % m` are all non-finite).
* `f32::sqrt` and `f32::powf` are irrational in general, so they are
  passed in as parameters `sq : ℚ → ℚ` and `pw : ℚ → ℚ → ℚ`.
* Entities are list indices (`ℕ`); the Bevy ECS `World` is a
  `List Particle`, and component reads by entity id become `List.getD`.
* The `bevy_spatial` k-d tree is external to the repository; it is kept
  abstract as a query function `tree : F × F → List ℕ` mapping a query
  position to the entity ids it reports within `MAXIMUM_RADIUS_OF_EFFECT`.
-/

/-! ## Constants (from `src/main.rs`) -/

def NUMBER_OF_PARTICLES : ℕ := 10000

def WINDOW_WIDTH : ℚ := 800

def WINDOW_HEIGHT : ℚ := 800

def BETA_REPULSION_DISTANCE : ℚ := 1/2

def MAXIMUM_RADIUS_OF_EFFECT : ℚ := 20

def FRICTION_HALF_TIME : ℚ := 2/5

def NUMBER_OF_TYPES : ℕ := 5

/-! ## Possibly-non-finite float arithmetic -/

/-- A floating-point value: `some q` is finite, `none` is non-finite
(NaN or ±∞). -/
abbrev F := Option ℚ

/-- Addition; non-finiteness propagates. -/
def fadd : F → F → F
  | some a, some b => some (a + b)
  | _, _ => none

/-- Subtraction; non-finiteness propagates. -/
def fsub : F → F → F
  | some a, some b => some (a - b)
  | _, _ => none

/-- Multiplication; non-finiteness propagates (`∞ * 0` and `NaN * x` are
both non-finite). -/
def fmul : F → F → F
  | some a, some b => some (a * b)
  | _, _ => none

/-- Division.  A finite value divided by zero is non-finite
(`0/0 = NaN`, `x/0 = ±∞`); a non-finite numerator stays non-finite.
(The case finite/∞, which would be finite `0`, never arises in this
program: the only divisors are `sqrt` of a finite value and the constant
`MAXIMUM_RADIUS_OF_EFFECT`.) -/
def fdiv : F → F → F
  | some a, some b => if b = 0 then none else some (a / b)
  | _, _ => none

/-- `f32::sqrt`, lifted: `sq` models sqrt on finite inputs, non-finite
inputs give non-finite outputs. -/
def fsqrt (sq : ℚ → ℚ) : F → F := Option.map sq

/-! ## The force law (`force` in `src/main.rs`) -/

/-- First branch of `force` (`d < BETA`): `distance / BETA_REPULSION_DISTANCE - 1.0`. -/
def leftBranch (d : ℚ) : ℚ := d / BETA_REPULSION_DISTANCE - 1

/-- Second branch of `force` (`BETA <= d < 1`):
`attraction_factor * (1.0 - |2.0 * d - 1.0 - BETA| / (1.0 - BETA))`. -/
def rightBranch (attraction_factor d : ℚ) : ℚ :=
  let numerator := |2 * d - 1 - BETA_REPULSION_DISTANCE|
  let denominator := 1 - BETA_REPULSION_DISTANCE
  attraction_factor * (1 - numerator / denominator)

/-- `fn force(attraction_factor: f32, distance: f32) -> f32`.
`(BETA..1.0).contains(&d)` is `BETA ≤ d ∧ d < 1`. -/
def force (attraction_factor distance : ℚ) : ℚ :=
  if distance < BETA_REPULSION_DISTANCE then
    leftBranch distance
  else if BETA_REPULSION_DISTANCE ≤ distance ∧ distance < 1 then
    rightBranch attraction_factor distance
  else
    0

/-- `force` applied to a possibly-non-finite distance.  In Rust, a NaN or
`+∞` distance fails both range tests (`NaN < 0.5` and `0.5 <= NaN` are
false, and `∞ < 0.5`, `∞ < 1.0` are false), so the `else` branch returns
the finite value `0.0`.  (A `-∞` distance cannot arise: distances are
square roots.) -/
def forceF (attraction_factor : ℚ) : F → F
  | some d => some (force attraction_factor d)
  | none => some 0

/-! ## Data model -/

/-- A particle: the `Particle` bundle's simulation-relevant components
(`Type(usize)`, `Position(Vec2)`, `Velocity(Vec2)`); the `Point` marker
and the rendering mesh are out of scope.  Coordinates are possibly
non-finite floats. -/
structure Particle where
  ty : ℕ
  pos : F × F
  vel : F × F
deriving DecidableEq, Repr

instance : Inhabited Particle := ⟨⟨0, (some 0, some 0), (some 0, some 0)⟩⟩

/-- The `AttractionFactors` resource: a flattened `number_of_types ×
number_of_types` matrix. -/
structure AttractionFactors where
  number_of_types : ℕ
  matrix : List ℚ
deriving DecidableEq, Repr

/-- `AttractionFactors::get_factor`: `self.matrix[type1.0 * self.number_of_types + type2.0]`. -/
def get_factor (af : AttractionFactors) (type1 type2 : ℕ) : ℚ :=
  af.matrix.getD (type1 * af.number_of_types + type2) 0

/-! ## Neighbor Query Stage (`get_particles`) -/

/-- The inner loop of `get_particles`: push every entity the spatial index
reports, skipping (`continue`) any entry equal to `this_entity`. -/
def push_others (this_entity : ℕ) : List ℕ → List ℕ
  | [] => []
  | other_entity :: rest =>
    if this_entity = other_entity then push_others this_entity rest
    else other_entity :: push_others this_entity rest

/-- One neighbor list of `get_particles`: `this_entity` first (eases the
later bulk lookup), then the filtered index results. -/
def get_particles_row (this_entity : ℕ) (within : List ℕ) : List ℕ :=
  this_entity :: push_others this_entity within

/-- `fn get_particles`: one row per particle, querying the spatial index
at that particle's position with radius `MAXIMUM_RADIUS_OF_EFFECT` (the
radius is part of the abstract `tree`). -/
def get_particles (ps : List Particle) (tree : F × F → List ℕ) : List (List ℕ) :=
  (List.range ps.length).map fun i =>
    get_particles_row i (tree (ps.getD i default).pos)

/-! ## Force/Acceleration Stage (`compute_acceleration`) -/

/-- One neighbor's contribution inside the `compute_acceleration` loop:
`vector = other_position - this_position`, `distance = vector.0.length()`,
`force(get_factor(this_type, other_type), distance / MAXIMUM_RADIUS_OF_EFFECT)`,
contribution `(vector.0 / distance) * force` (componentwise). -/
def contribCode (sq : ℚ → ℚ) (af : AttractionFactors) (this_p other_p : Particle) : F × F :=
  let vx := fsub other_p.pos.1 this_p.pos.1
  let vy := fsub other_p.pos.2 this_p.pos.2
  let distance := fsqrt sq (fadd (fmul vx vx) (fmul vy vy))
  let f := forceF (get_factor af this_p.ty other_p.ty)
    (fdiv distance (some MAXIMUM_RADIUS_OF_EFFECT))
  (fmul (fdiv vx distance) f, fmul (fdiv vy distance) f)

/-- Componentwise `+=` on a `Vec2` accumulator. -/
def vaddF (a b : F × F) : F × F := (fadd a.1 b.1, fadd a.2 b.2)

/-- One iteration of the outer `compute_acceleration` loop: `entities[0]`
is the particle itself, the rest are its neighbors; accumulate
`acceleration += contribution`, then `acceleration *= MAXIMUM_RADIUS_OF_EFFECT`,
and emit `(entity id, acceleration)`.  (Rows produced by `get_particles`
are never empty; on `[]` the Rust code would panic at `entities[0]`.) -/
def compute_row (sq : ℚ → ℚ) (af : AttractionFactors) (ps : List Particle) :
    List ℕ → ℕ × (F × F)
  | [] => (0, (some 0, some 0))
  | this_entity :: rest =>
    let this_p := ps.getD this_entity default
    let acceleration := rest.foldl
      (fun acceleration other_entity =>
        vaddF acceleration (contribCode sq af this_p (ps.getD other_entity default)))
      (some 0, some 0)
    (this_entity,
      (fmul acceleration.1 (some MAXIMUM_RADIUS_OF_EFFECT),
       fmul acceleration.2 (some MAXIMUM_RADIUS_OF_EFFECT)))

/-- `fn compute_acceleration`: one `(entity, acceleration)` pair per
neighbor list. -/
def compute_acceleration (sq : ℚ → ℚ) (af : AttractionFactors) (ps : List Particle)
    (rows : List (List ℕ)) : List (ℕ × (F × F)) :=
  rows.map (compute_row sq af ps)

/-! ## Integration Stage (`apply_acceleration`) -/

/-- `friction = 0.5f32.powf(delta_time / FRICTION_HALF_TIME)`; `pw`
models `f32::powf`. -/
def friction (pw : ℚ → ℚ → ℚ) (delta_time : ℚ) : ℚ :=
  pw (1/2) (delta_time / FRICTION_HALF_TIME)

/-- The per-particle body of `apply_acceleration`:
`velocity = friction * old_velocity + acceleration * delta_time;`
`position = old_position + velocity * delta_time`. -/
def integrate (pw : ℚ → ℚ → ℚ) (delta_time : ℚ) (acceleration : F × F)
    (p : Particle) : Particle :=
  let fr := friction pw delta_time
  let vel1 := (fadd (fmul (some fr) p.vel.1) (fmul acceleration.1 (some delta_time)),
               fadd (fmul (some fr) p.vel.2) (fmul acceleration.2 (some delta_time)))
  { p with
    vel := vel1
    pos := (fadd p.pos.1 (fmul vel1.1 (some delta_time)),
            fadd p.pos.2 (fmul vel1.2 (some delta_time))) }

/-- `fn apply_acceleration`: for each emitted `(entity, acceleration)`
pair, mutate that entity's velocity and position in place. -/
def apply_acceleration (pw : ℚ → ℚ → ℚ) (delta_time : ℚ)
    (accelerations : List (ℕ × (F × F))) (ps : List Particle) : List Particle :=
  accelerations.foldl
    (fun cur ea => cur.set ea.1 (integrate pw delta_time ea.2 (cur.getD ea.1 default)))
    ps

/-! ## Boundary Wrap Stage (`wrap_particles`) -/

/-- `f32::rem_euclid` on finite values: `a - b * ⌊a / b⌋`, the Euclidean
remainder (non-negative for a positive divisor). -/
def remEuclid (a b : ℚ) : ℚ := a - b * ⌊a / b⌋

/-- One coordinate of `wrap_particles`:
`(value + extent / 2.0).rem_euclid(extent) - extent / 2.0`. -/
def wrapCoord (extent value : ℚ) : ℚ :=
  remEuclid (value + extent / 2) extent - extent / 2

/-- `wrapCoord` on a possibly-non-finite coordinate (`NaN % m` and
`∞ % m` are non-finite). -/
def wrapF (extent : ℚ) : F → F := Option.map (wrapCoord extent)

/-- `fn wrap_particles`: wrap `x` by `WINDOW_WIDTH` and `y` by
`WINDOW_HEIGHT`, componentwise. -/
def wrap_particles (ps : List Particle) : List Particle :=
  ps.map fun p =>
    { p with pos := (wrapF WINDOW_WIDTH p.pos.1, wrapF WINDOW_HEIGHT p.pos.2) }

/-! ## Whole tick and startup -/

/-- One simulation tick: the `FixedUpdate` pipeline
`get_particles |> compute_acceleration |> apply_acceleration`, followed by
the `PostUpdate` system `wrap_particles`. -/
def tick (sq : ℚ → ℚ) (pw : ℚ → ℚ → ℚ) (af : AttractionFactors)
    (tree : F × F → List ℕ) (delta_time : ℚ) (ps : List Particle) : List Particle :=
  wrap_particles
    (apply_acceleration pw delta_time
      (compute_acceleration sq af ps (get_particles ps tree)) ps)

/-- `fn setup`: spawn `NUMBER_OF_PARTICLES` particles, each at position
`((x - 0.5) * WINDOW_WIDTH, (y - 0.5) * WINDOW_HEIGHT)` for random
`x, y ∈ [0,1)` and a random type in `[0, NUMBER_OF_TYPES)`; `randX`,
`randY`, `randT` model the successive draws of the RNG, and velocity
starts at `Velocity::default()` = zero. -/
def setup (randX randY : ℕ → ℚ) (randT : ℕ → ℕ) : List Particle :=
  (List.range NUMBER_OF_PARTICLES).map fun i =>
    { ty := randT i
      pos := (some ((randX i - 1/2) * WINDOW_WIDTH), some ((randY i - 1/2) * WINDOW_HEIGHT))
      vel := (some 0, some 0) }

/-! ## Spec-side definitions (written from the spec's words, for the
refinement claim about the Force/Acceleration stage) -/

/-- Spec-side contribution, following section 4.4 of the spec verbatim:
`vector = O.position - P.position` (raw, unwrapped difference),
`distance = |vector|`, `normalizedDistance = distance / MAXIMUM_RADIUS_OF_EFFECT`,
`forceMagnitude = force(attractionMatrix.getFactor(P.type, O.type), normalizedDistance)`,
contribution `(vector / distance) * forceMagnitude`. -/
def contribSpec (sq : ℚ → ℚ) (af : AttractionFactors) (P O : Particle) : F × F :=
  let vector := (fsub O.pos.1 P.pos.1, fsub O.pos.2 P.pos.2)
  let distance := fsqrt sq (fadd (fmul vector.1 vector.1) (fmul vector.2 vector.2))
  let normalizedDistance := fdiv distance (some MAXIMUM_RADIUS_OF_EFFECT)
  let forceMagnitude := forceF (get_factor af P.ty O.ty) normalizedDistance
  (fmul (fdiv vector.1 distance) forceMagnitude,
   fmul (fdiv vector.2 distance) forceMagnitude)

/-- Spec-side emitted acceleration: `MAXIMUM_RADIUS_OF_EFFECT` times the
sum, over every other entity `O` in `L[1:]`, of `O`'s contribution. -/
def accelerationSpec (sq : ℚ → ℚ) (af : AttractionFactors) (P : Particle)
    (others : List Particle) : F × F :=
  let total := (others.map (contribSpec sq af P)).foldr vaddF (some 0, some 0)
  (fmul (some MAXIMUM_RADIUS_OF_EFFECT) total.1,
   fmul (some MAXIMUM_RADIUS_OF_EFFECT) total.2)

/-- Squared Euclidean magnitude of a finite 2D vector (used to state
magnitude decay exactly, without a square root). -/
def magSq (x y : ℚ) : ℚ := x * x + y * y

/-! ## Helper lemmas -/

lemma fadd_some (a b : ℚ) : fadd (some a) (some b) = some (a + b) := rfl

lemma fmul_some (a b : ℚ) : fmul (some a) (some b) = some (a * b) := rfl

lemma fadd_zero_right (a : F) : fadd a (some 0) = a := by
  cases a <;> simp [fadd]

lemma fadd_comm (a b : F) : fadd a b = fadd b a := by
  cases a <;> cases b <;> simp [fadd, add_comm]

lemma fadd_assoc (a b c : F) : fadd (fadd a b) c = fadd a (fadd b c) := by
  cases a <;> cases b <;> cases c <;> simp [fadd, add_assoc]

lemma fmul_comm (a b : F) : fmul a b = fmul b a := by
  cases a <;> cases b <;> simp [fmul, mul_comm]

lemma vaddF_zero_right (a : F × F) : vaddF a (some 0, some 0) = a := by
  simp [vaddF, fadd_zero_right]

lemma vaddF_assoc (a b c : F × F) : vaddF (vaddF a b) c = vaddF a (vaddF b c) := by
  simp [vaddF, fadd_assoc]

/-- Folding contributions from the left (the Rust `+=` loop) equals the
initial accumulator plus the right-fold sum of the mapped contributions. -/
lemma foldl_vaddF {α : Type} (f : α → F × F) (l : List α) (init : F × F) :
    l.foldl (fun acc x => vaddF acc (f x)) init =
      vaddF init ((l.map f).foldr vaddF (some 0, some 0)) := by
  induction l generalizing init with
  | nil => simp [vaddF_zero_right]
  | cons x xs ih =>
    simp only [List.foldl_cons, List.map_cons, List.foldr_cons]
    rw [ih (vaddF init (f x)), vaddF_assoc]

/-- The loop body of `compute_row` and the spec-side contribution agree. -/
lemma contribCode_eq_contribSpec (sq : ℚ → ℚ) (af : AttractionFactors)
    (P O : Particle) : contribCode sq af P O = contribSpec sq af P O := rfl

/-- `push_others` is exactly a filter of the index results. -/
lemma push_others_eq_filter (e : ℕ) (l : List ℕ) :
    push_others e l = l.filter (fun o => o ≠ e) := by
  induction l with
  | nil => rfl
  | cons x xs ih =>
    simp only [push_others, List.filter_cons]
    by_cases h : e = x
    · subst h; simp [ih]
    · have hx : x ≠ e := fun hh => h hh.symm
      simp [h, hx, ih]

/-- Euclidean remainder is non-negative for a positive divisor. -/
lemma remEuclid_nonneg (a b : ℚ) (hb : 0 < b) : 0 ≤ remEuclid a b := by
  have h1 : (⌊a / b⌋ : ℚ) * b ≤ a := (le_div_iff₀ hb).mp (Int.floor_le (a / b))
  have : b * (⌊a / b⌋ : ℚ) ≤ a := by linarith [h1]
  simp [remEuclid]
  linarith

/-- Euclidean remainder is below a positive divisor. -/
lemma remEuclid_lt (a b : ℚ) (hb : 0 < b) : remEuclid a b < b := by
  have h2 : a < ((⌊a / b⌋ : ℚ) + 1) * b := (div_lt_iff₀ hb).mp (Int.lt_floor_add_one (a / b))
  simp [remEuclid]
  nlinarith

/-- The wrapped coordinate lies in `[-extent/2, extent/2)`. -/
lemma wrapCoord_mem (extent value : ℚ) (he : 0 < extent) :
    -(extent / 2) ≤ wrapCoord extent value ∧ wrapCoord extent value < extent / 2 := by
  have h1 := remEuclid_nonneg (value + extent / 2) extent he
  have h2 := remEuclid_lt (value + extent / 2) extent he
  constructor <;> simp [wrapCoord] <;> linarith

/-! ## Claim theorems -/

/-- C2 counterexample: the claim says the right (attraction-shell) branch
evaluates to `a * 1.0` at `d = BETA_REPULSION_DISTANCE`; at `a = 1` that
would be `1 * 1`, but the branch actually evaluates to `0`. -/
theorem right_branch_at_beta_not_one :
    ¬ (rightBranch 1 BETA_REPULSION_DISTANCE = 1 * 1) := by
  norm_num [rightBranch, BETA_REPULSION_DISTANCE]

/-- C2 (amended): at `d = BETA_REPULSION_DISTANCE` the left branch gives
`0`, the right branch gives `a * 0 = 0` for every attraction factor `a`
(the triangular kernel vanishes at both shell boundaries), and the two
branches meet exactly there; `force` itself is `0` at the boundary. -/
theorem force_branches_meet_at_beta (a : ℚ) :
    leftBranch BETA_REPULSION_DISTANCE = 0 ∧
      rightBranch a BETA_REPULSION_DISTANCE = 0 ∧
      leftBranch BETA_REPULSION_DISTANCE = rightBranch a BETA_REPULSION_DISTANCE ∧
      force a BETA_REPULSION_DISTANCE = 0 := by
  have hnum : |2 * BETA_REPULSION_DISTANCE - 1 - BETA_REPULSION_DISTANCE| =
      1 - BETA_REPULSION_DISTANCE := by
    rw [show 2 * BETA_REPULSION_DISTANCE - 1 - BETA_REPULSION_DISTANCE =
        -(1 - BETA_REPULSION_DISTANCE) by norm_num [BETA_REPULSION_DISTANCE]]
    rw [abs_neg, abs_of_nonneg (by norm_num [BETA_REPULSION_DISTANCE])]
  have hr : rightBranch a BETA_REPULSION_DISTANCE = 0 := by
    simp only [rightBranch, hnum]
    rw [div_self (by norm_num [BETA_REPULSION_DISTANCE] :
      (1 : ℚ) - BETA_REPULSION_DISTANCE ≠ 0)]
    ring
  have hl : leftBranch BETA_REPULSION_DISTANCE = 0 := by
    norm_num [leftBranch, BETA_REPULSION_DISTANCE]
  have hf : force a BETA_REPULSION_DISTANCE = rightBranch a BETA_REPULSION_DISTANCE := by
    norm_num [force, BETA_REPULSION_DISTANCE]
  exact ⟨hl, hr, hl.trans hr.symm, hf.trans hr⟩

/-- C7: in the repulsion core `0 ≤ d < BETA_REPULSION_DISTANCE`, the
force is `d / BETA_REPULSION_DISTANCE - 1`, strictly negative,
independent of the attraction factor, and `-1` at `d = 0`. -/
theorem repulsion_core_force (a b d : ℚ) (h0 : 0 ≤ d)
    (h1 : d < BETA_REPULSION_DISTANCE) :
    force a d = d / BETA_REPULSION_DISTANCE - 1 ∧ force a d < 0 ∧
      force a d = force b d ∧ force a 0 = -1 := by
  have hfa : ∀ c : ℚ, force c d = d / BETA_REPULSION_DISTANCE - 1 := by
    intro c
    simp [force, h1, leftBranch]
  have hb : BETA_REPULSION_DISTANCE = 1/2 := rfl
  refine ⟨hfa a, ?_, (hfa a).trans (hfa b).symm, ?_⟩
  · rw [hfa a, hb]
    rw [hb] at h1
    norm_num
    linarith
  · norm_num [force, leftBranch, BETA_REPULSION_DISTANCE]

/-- C7 witness at `a = 1`, `b = -1`, `d = 1/4`. -/
theorem repulsion_core_force_witness :
    force 1 (1/4) = (1/4) / BETA_REPULSION_DISTANCE - 1 ∧ force 1 (1/4) < 0 ∧
      force (1 : ℚ) (1/4) = force (-1) (1/4) ∧ force (1 : ℚ) 0 = -1 :=
  repulsion_core_force 1 (-1) (1/4) (by norm_num)
    (by norm_num [BETA_REPULSION_DISTANCE])

/-- C5: for every finite input coordinate pair, the Boundary Wrap result
lies in `[-WINDOW_WIDTH/2, WINDOW_WIDTH/2) × [-WINDOW_HEIGHT/2, WINDOW_HEIGHT/2)`. -/
theorem wrap_result_in_domain (x y : ℚ) :
    (-(WINDOW_WIDTH / 2) ≤ wrapCoord WINDOW_WIDTH x ∧
        wrapCoord WINDOW_WIDTH x < WINDOW_WIDTH / 2) ∧
      (-(WINDOW_HEIGHT / 2) ≤ wrapCoord WINDOW_HEIGHT y ∧
        wrapCoord WINDOW_HEIGHT y < WINDOW_HEIGHT / 2) :=
  ⟨wrapCoord_mem WINDOW_WIDTH x (by norm_num [WINDOW_WIDTH]),
   wrapCoord_mem WINDOW_HEIGHT y (by norm_num [WINDOW_HEIGHT])⟩

/-- C6: wrapping a coordinate already in `[-extent/2, extent/2)` returns
it unchanged (idempotence of the wrap formula). -/
theorem wrap_idempotent (extent v : ℚ) (he : 0 < extent)
    (h1 : -(extent / 2) ≤ v) (h2 : v < extent / 2) :
    wrapCoord extent v = v := by
  have hnum0 : 0 ≤ v + extent / 2 := by linarith
  have hnum1 : v + extent / 2 < extent := by linarith
  have hfl : ⌊(v + extent / 2) / extent⌋ = 0 := by
    rw [Int.floor_eq_zero_iff]
    exact Set.mem_Ico.mpr ⟨div_nonneg hnum0 he.le, (div_lt_one he).mpr hnum1⟩
  simp [wrapCoord, remEuclid, hfl]

/-- C6 witness at `extent = WINDOW_WIDTH = 800`, `v = 100`. -/
theorem wrap_idempotent_witness : wrapCoord 800 100 = 100 :=
  wrap_idempotent 800 100 (by norm_num) (by norm_num) (by norm_num)

lemma fadd_zero_left (a : F) : fadd (some 0) a = a := by
  cases a <;> simp [fadd]

lemma vaddF_zero_left (a : F × F) : vaddF (some 0, some 0) a = a := by
  simp [vaddF, fadd_zero_left]

/-- Two particles of type `0`, both at position `(1, 2)`, with zero
velocity. -/
def coincidentParticle : Particle := ⟨0, (some 1, some 2), (some 0, some 0)⟩

def coincidentPair : List Particle := [coincidentParticle, coincidentParticle]

/-- An attraction matrix of the source's shape with every factor `1/2`. -/
def uniformFactors : AttractionFactors :=
  ⟨NUMBER_OF_TYPES, List.replicate (NUMBER_OF_TYPES * NUMBER_OF_TYPES) (1/2)⟩

/-- A pair of particles at identical finite positions contributes
`(0/0, 0/0) * force = NaN`: the non-finite value, not a skipped (zero)
contribution.  `hsq` pins the square root of the zero squared distance. -/
lemma contrib_coincident (sq : ℚ → ℚ) (hsq : sq 0 = 0) (af : AttractionFactors)
    (t1 t2 : ℕ) (x y : ℚ) (v1 v2 : F × F) :
    contribCode sq af ⟨t1, (some x, some y), v1⟩ ⟨t2, (some x, some y), v2⟩ =
      (none, none) := by
  norm_num [contribCode, fadd, fsub, fmul, fdiv, fsqrt, forceF, force, leftBranch,
    hsq, MAXIMUM_RADIUS_OF_EFFECT, BETA_REPULSION_DISTANCE]

/-- C1: the division by distance is NOT guarded.  Two coincident
particles (both at `(1, 2)`, type `0`, attraction factor `1/2`) each
receive acceleration `(vector / 0) * force = NaN` — the non-finite value
`none` — and the Integration stage then propagates it into both velocity
and position.  (`sq` is instantiated with the identity, which satisfies
`sqrt 0 = 0` at the only point where it is evaluated; `pw` with a
function returning a finite friction.) -/
theorem coincident_pair_produces_nan :
    compute_acceleration (fun x => x) uniformFactors coincidentPair [[0, 1], [1, 0]] =
      [(0, (none, none)), (1, (none, none))] ∧
    apply_acceleration (fun x _ => x) (1/10)
        [(0, (none, none)), (1, (none, none))] coincidentPair =
      [⟨0, (none, none), (none, none)⟩, ⟨0, (none, none), (none, none)⟩] := by
  have hgd0 : List.getD coincidentPair 0 default = coincidentParticle := rfl
  have hgd1 : List.getD coincidentPair 1 default = coincidentParticle := rfl
  have hc : contribCode (fun x => x) uniformFactors coincidentParticle
      coincidentParticle = (none, none) :=
    contrib_coincident (fun x => x) rfl uniformFactors 0 0 1 2 _ _
  constructor
  · simp only [compute_acceleration, List.map_cons, List.map_nil, compute_row,
      List.foldl_cons, List.foldl_nil]
    rw [hgd0, hgd1, hc]
    rfl
  · rfl

/-- C3: the acceleration emitted by the Force/Acceleration stage for a
neighbor list `e :: others` is exactly `MAXIMUM_RADIUS_OF_EFFECT` times
the sum, over the entities in `L[1:]`, of
`(vector / distance) * force(getFactor(P.type, O.type), distance / MAXIMUM_RADIUS_OF_EFFECT)`,
with `vector` the raw unwrapped coordinate difference and
`distance = |vector|` (the spec-side formula `accelerationSpec`). -/
theorem acceleration_matches_spec (sq : ℚ → ℚ) (af : AttractionFactors)
    (ps : List Particle) (e : ℕ) (others : List ℕ) :
    compute_row sq af ps (e :: others) =
      (e, accelerationSpec sq af (ps.getD e default)
            (others.map fun o => ps.getD o default)) := by
  have hmap : (others.map fun o => ps.getD o default).map
      (contribSpec sq af (ps.getD e default)) =
      others.map fun o => contribCode sq af (ps.getD e default) (ps.getD o default) := by
    rw [List.map_map]; rfl
  simp only [compute_row, accelerationSpec, hmap]
  rw [foldl_vaddF (fun o => contribCode sq af (ps.getD e default) (ps.getD o default))
    others (some 0, some 0)]
  rw [vaddF_zero_left]
  simp only [Prod.mk.injEq]
  exact ⟨trivial, fmul_comm _ _, fmul_comm _ _⟩

/-- C4: the Integration stage computes
`velocity' = friction * velocity + acceleration * delta_time` and
`position' = position + velocity' * delta_time` with
`friction = 0.5 ^ (delta_time / FRICTION_HALF_TIME)` (here
`friction pw delta_time = pw (1/2) (delta_time / FRICTION_HALF_TIME)`),
and with zero acceleration the velocity scales by the friction factor
each tick, so its squared magnitude scales by `friction ^ 2`. -/
theorem integration_update (pw : ℚ → ℚ → ℚ)
    (delta_time px py vx vy ax ay : ℚ) (t : ℕ) :
    (integrate pw delta_time (some ax, some ay)
        ⟨t, (some px, some py), (some vx, some vy)⟩ =
      ⟨t, (some (px + (friction pw delta_time * vx + ax * delta_time) * delta_time),
           some (py + (friction pw delta_time * vy + ay * delta_time) * delta_time)),
          (some (friction pw delta_time * vx + ax * delta_time),
           some (friction pw delta_time * vy + ay * delta_time))⟩) ∧
    (integrate pw delta_time (some 0, some 0)
        ⟨t, (some px, some py), (some vx, some vy)⟩).vel =
      (some (friction pw delta_time * vx), some (friction pw delta_time * vy)) ∧
    magSq (friction pw delta_time * vx) (friction pw delta_time * vy) =
      friction pw delta_time ^ 2 * magSq vx vy := by
  refine ⟨?_, ?_, ?_⟩
  · rfl
  · simp [integrate, fadd, fmul]
  · simp only [magSq]
    ring

/-- C8: the Neighbor Query Stage gives particle `i` (for `i` within the
population) the list whose first entry is `i` itself and whose remainder
is exactly the spatial index's report at `i`'s position with every
occurrence of `i` itself filtered out. -/
theorem neighbor_list_shape (ps : List Particle) (tree : F × F → List ℕ)
    (i : ℕ) (h : i < ps.length) :
    (get_particles ps tree).getD i [] =
      i :: (tree (ps.getD i default).pos).filter (fun o => o ≠ i) := by
  simp only [get_particles, List.getD, List.get?_map, List.get?_range h,
    Option.map_some, Option.getD_some]
  simp only [get_particles_row, push_others_eq_filter]
  simp

/-- C8 witness: two particles, index reporting `[0, 1]`, particle `0`. -/
theorem neighbor_list_shape_witness :
    (get_particles coincidentPair (fun _ => [0, 1])).getD 0 [] =
      0 :: ([0, 1].filter (fun o => o ≠ 0)) :=
  neighbor_list_shape coincidentPair (fun _ => [0, 1]) 0 (by decide)

lemma apply_acceleration_length (pw : ℚ → ℚ → ℚ) (dt : ℚ)
    (accels : List (ℕ × (F × F))) (ps : List Particle) :
    (apply_acceleration pw dt accels ps).length = ps.length := by
  induction accels generalizing ps with
  | nil => rfl
  | cons a rest ih =>
    have hstep : apply_acceleration pw dt (a :: rest) ps =
        apply_acceleration pw dt rest
          (ps.set a.1 (integrate pw dt a.2 (ps.getD a.1 default))) := rfl
    rw [hstep, ih, List.length_set]

lemma wrap_particles_length (ps : List Particle) :
    (wrap_particles ps).length = ps.length := by
  simp [wrap_particles]

lemma tick_length (sq : ℚ → ℚ) (pw : ℚ → ℚ → ℚ) (af : AttractionFactors)
    (tree : F × F → List ℕ) (dt : ℚ) (ps : List Particle) :
    (tick sq pw af tree dt ps).length = ps.length := by
  rw [tick, wrap_particles_length, apply_acceleration_length]

/-- C9: population conservation — after any number `N` of full simulation
ticks starting from the initial spawn, the particle count is still
`NUMBER_OF_PARTICLES`; no stage creates or destroys a particle. -/
theorem population_conserved (sq : ℚ → ℚ) (pw : ℚ → ℚ → ℚ) (af : AttractionFactors)
    (tree : F × F → List ℕ) (dt : ℚ) (randX randY : ℕ → ℚ) (randT : ℕ → ℕ) (N : ℕ) :
    ((tick sq pw af tree dt)^[N] (setup randX randY randT)).length =
      NUMBER_OF_PARTICLES := by
  induction N with
  | zero => simp [setup]
  | succ n ih => rw [Function.iterate_succ_apply', tick_length, ih]

/-- C10: the Boundary Wrap stage mutates only positions — the type and
velocity of every particle are unchanged by a wrap pass. -/
theorem wrap_preserves_type_and_velocity (ps : List Particle) :
    (wrap_particles ps).map (fun p => (p.ty, p.vel)) =
      ps.map (fun p => (p.ty, p.vel)) := by
  simp only [wrap_particles, List.map_map]
  rfl
